import Mathlib

/-!
# manners: graceful shutdown for a Go HTTP server

A shallow embedding of `manners.go`.  The package keeps three package-level
variables (`ShutdownChannel`, `shutdownHandler`, `waitGroup`); they are the
fields of `World`, which every operation threads explicitly.  Calls that leave
the package (the embedded `net.Listener` and `net.Conn`, the `sync.WaitGroup`,
the `go` statement, the channel receive) are recorded in `World.trace`, in the
order in which the code makes them.  A call either returns, panics, or blocks.
-/

namespace Manners

/-- A non-nil Go `error`, by dynamic type: either `mannersError{inner}` (the
struct of manners.go:132 with its embedded `error`, which is itself an
interface value and may be nil) or an error of any other dynamic type. -/
inductive GoError where
  | other (descr : String)
  | manners (inner : Option GoError)

/-- The type assertion `_, ok := err.(mannersError)` on a non-nil error. -/
def GoError.isManners : GoError → Bool
  | .manners _ => true
  | .other _ => false

/-- A struct `GracefulListener{net.Listener, open}`; the embedded listener is
an object outside the package, known by its identity. -/
structure GracefulListener where
  Listener : Nat
  open_ : Bool
deriving DecidableEq, Repr

/-- A struct `GracefulConnection{net.Conn}`; the embedded connection is an
object outside the package, known by its identity. -/
structure GracefulConnection where
  Conn : Nat
deriving DecidableEq, Repr

/-- A Go `int32`: an integer in the range of 32-bit two's complement. -/
abbrev int32 : Type := { x : Int // -2147483648 ≤ x ∧ x ≤ 2147483647 }

/-- The conversion `int32(x)`, which wraps around modulo 2^32. -/
def int32.ofInt (x : Int) : int32 :=
  ⟨(x + 2147483648) % 4294967296 - 2147483648, by omega⟩

/-- The two `go` statements of the package. -/
inductive Goroutine where
  | WaitForShutdown
  | RunRoutine_func1
deriving DecidableEq, Repr

/-- Calls that leave the package, as they appear in the trace. -/
inductive Event where
  | listenerAccept (l : Nat)
  | listenerClose (l : Nat)
  | connClose (c : Nat)
  | wgAdd (delta : Int)
  | wgWait
  | recvShutdown (sig : Nat)
  | go (g : Goroutine)
deriving DecidableEq, Repr

/-- Package state.  `ShutdownChannel` holds the values senders are offering on
the channel; `shutdownHandler` is nil (`none`) or the closure
`func() { this.Close() }`, represented by the pointer `this` it captured;
`waitGroup` is the 32-bit counter of the `sync.WaitGroup`; `heap` holds the
`GracefulListener` structs that pointers (indices) refer to, a pointer outside
the heap being nil. -/
structure World where
  ShutdownChannel : List Nat
  shutdownHandler : Option Nat
  waitGroup : int32
  heap : List GracefulListener
  trace : List Event
deriving DecidableEq, Repr

/-- The state at package initialisation (manners.go:10-14). -/
def World.init : World :=
  { ShutdownChannel := [], shutdownHandler := none, waitGroup := int32.ofInt 0, heap := [],
    trace := [] }

/-- Append one external call to the trace. -/
def World.log (w : World) (e : Event) : World :=
  { w with trace := w.trace ++ [e] }

/-- How a call ends: it returns a value, it panics, or it blocks (on the
wait group or on the channel) in the state given. -/
inductive Res (α : Type) where
  | ret (a : α) (w : World)
  | panicked (msg : String) (w : World)
  | blocked (w : World)

/-- Sequencing: run `k` on the result of a call that returned. -/
def Res.bind {α β : Type} (r : Res α) (k : α → World → Res β) : Res β :=
  match r with
  | .ret a w => k a w
  | .panicked msg w => .panicked msg w
  | .blocked w => .blocked w

/-- The state a call ended in. -/
def Res.world {α : Type} : Res α → World
  | .ret _ w => w
  | .panicked _ w => w
  | .blocked w => w

/-- Whether the call returned. -/
def Res.returned {α : Type} : Res α → Bool
  | .ret _ _ => true
  | _ => false

/-- Whether the call panicked. -/
def Res.hasPanicked {α : Type} : Res α → Bool
  | .panicked _ _ => true
  | _ => false

/-- Whether the call is blocked. -/
def Res.isBlocked {α : Type} : Res α → Bool
  | .blocked _ => true
  | _ => false

/-- Message of the runtime panic on dereferencing a nil pointer. -/
def nilDeref : String := "runtime error: invalid memory address or nil pointer dereference"

/-- Message of the panic of `sync.WaitGroup.Add`. -/
def negativeCounter : String := "sync: negative WaitGroup counter"

/-- Go standard library `(*sync.WaitGroup).Add`: the delta is added to the
counter, an `int32` that wraps around (`atomic.AddInt32`, in later versions the
high 32 bits of the state word), and if the counter is then negative, Add
panics, the counter keeping its new value. -/
def WaitGroup.Add (delta : Int) (w : World) : Res Unit :=
  let w1 := { w.log (.wgAdd delta) with waitGroup := int32.ofInt (w.waitGroup.val + delta) }
  if w1.waitGroup.val < 0 then .panicked negativeCounter w1 else .ret () w1

/-- Go standard library `(*sync.WaitGroup).Done`: decrements the counter by one. -/
def WaitGroup.Done (w : World) : Res Unit :=
  WaitGroup.Add (-1) w

/-- Go standard library `(*sync.WaitGroup).Wait`: blocks until the counter is
zero. -/
def WaitGroup.Wait (w : World) : Res Unit :=
  if w.waitGroup.val = 0 then .ret () (w.log .wgWait) else .blocked (w.log .wgWait)

/-- manners.go:73 -/
def StartRoutine (w : World) : Res Unit :=
  WaitGroup.Add 1 w

/-- manners.go:77 -/
def FinishRoutine (w : World) : Res Unit :=
  WaitGroup.Done w

/-- manners.go:86.  Allocates the struct `{oldListener, true}` and returns the
pointer to it. -/
def NewListener (oldListener : Nat) (w : World) : Res Nat :=
  .ret w.heap.length { w with heap := w.heap ++ [{ Listener := oldListener, open_ := true }] }

/-- manners.go:96.  `underlying` is what `this.Listener.Accept()` returns: a
connection or a non-nil error.  The result pair is `(net.Conn, error)`. -/
def GracefulListener.Accept (this : Nat) (underlying : Except GoError Nat) (w : World) :
    Res (Option GracefulConnection × Option GoError) :=
  match w.heap[this]? with
  | none => .panicked nilDeref w
  | some l =>
    let w1 := w.log (.listenerAccept l.Listener)
    match underlying with
    | .error err =>
      if !l.open_ then
        (WaitGroup.Wait w1).bind fun _ w2 => .ret (none, some (.manners (some err))) w2
      else
        .ret (none, some err) w1
    | .ok conn =>
      (StartRoutine w1).bind fun _ w2 => .ret (some { Conn := conn }, none) w2

/-- manners.go:109.  `underlying` is what `this.Listener.Close()` returns, if it
is called. -/
def GracefulListener.Close (this : Nat) (underlying : Option GoError) (w : World) :
    Res (Option GoError) :=
  match w.heap[this]? with
  | none => .panicked nilDeref w
  | some l =>
    if !l.open_ then
      .ret none w
    else
      let w1 := { w with heap := w.heap.set this { l with open_ := false } }
      let w2 := w1.log (.listenerClose l.Listener)
      .ret underlying w2

/-- manners.go:118.  Stores the closure `func() { this.Close() }`; the receiver
is not dereferenced. -/
def GracefulListener.CloseOnShutdown (this : Nat) (w : World) : Res Unit :=
  .ret () { w with shutdownHandler := some this }

/-- manners.go:81.  Receives one value from `ShutdownChannel` (blocking while no
sender offers one), then calls `shutdownHandler`; the closure discards the
result of `this.Close()`.  `underlying` is what the underlying listener's Close
returns, if it is called. -/
def WaitForShutdown (underlying : Option GoError) (w : World) : Res Unit :=
  match w.ShutdownChannel with
  | [] => .blocked w
  | sig :: rest =>
    let w1 := { w with ShutdownChannel := rest }.log (.recvShutdown sig)
    match w1.shutdownHandler with
    | none => .panicked nilDeref w1
    | some this => (GracefulListener.Close this underlying w1).bind fun _ w2 => .ret () w2

/-- manners.go:126.  `underlying` is what `this.Conn.Close()` returns. -/
def GracefulConnection.Close (this : GracefulConnection) (underlying : Option GoError)
    (w : World) : Res (Option GoError) :=
  let w1 := w.log (.connClose this.Conn)
  (FinishRoutine w1).bind fun _ w2 => .ret underlying w2

/-- manners.go:67-70, the body of the goroutine started by `RunRoutine`:
`defer FinishRoutine()` then `f()`.  The deferred call runs when `f` returns and
when `f` panics; in the second case the panic goes on after it (or is replaced
by a panic of the deferred call).  While `f` has not ended nothing is run. -/
def RunRoutine_func1 (f : World → Res Unit) (w : World) : Res Unit :=
  match f w with
  | .ret _ w1 => FinishRoutine w1
  | .panicked msg w1 =>
    match FinishRoutine w1 with
    | .ret _ w2 => .panicked msg w2
    | r => r
  | .blocked w1 => .blocked w1

/-- manners.go:65.  Calls `StartRoutine`, then starts the goroutine and returns.
The value returned here is the goroutine that the `go` statement started, to
be run from whatever state the scheduler runs it in. -/
def RunRoutine (f : World → Res Unit) (w : World) : Res (World → Res Unit) :=
  (StartRoutine w).bind fun _ w1 => .ret (RunRoutine_func1 f) (w1.log (.go .RunRoutine_func1))

/-- manners.go:42.  `delegate` is `srv.delegate.Serve`, the serve loop of the
`http.Server`, run over the listener. -/
def GracefulServer.Serve (delegate : Nat → World → Res (Option GoError)) (listener : Nat)
    (w : World) : Res (Option GoError) :=
  (GracefulListener.CloseOnShutdown listener w).bind fun _ w1 =>
  let w2 := w1.log (.go .WaitForShutdown)
  (delegate listener w2).bind fun err w3 =>
    match err with
    | none => .ret none w3
    | some e => if e.isManners then .ret none w3 else .ret (some e) w3

/-! ## Sequences of calls -/

/-- Calls `Accept` on the listener once for each connection the underlying
listener hands out, collecting the wrapped connections returned. -/
def acceptAll (this : Nat) : List Nat → World → Res (List GracefulConnection)
  | [], w => .ret [] w
  | conn :: conns, w =>
    (GracefulListener.Accept this (.ok conn) w).bind fun r w1 =>
      (acceptAll this conns w1).bind fun gcs w2 => .ret (r.1.toList ++ gcs) w2

/-- Calls `Close` on each wrapped connection of the list in turn; each entry
carries what the underlying connection's Close returns.  Collects the results. -/
def closeAll : List (GracefulConnection × Option GoError) → World → Res (List (Option GoError))
  | [], w => .ret [] w
  | (c, r) :: cs, w =>
    (GracefulConnection.Close c r w).bind fun e w1 =>
      (closeAll cs w1).bind fun es w2 => .ret (e :: es) w2

/-- Calls `Close` on the listener once for each entry of the list, the entry
being what the underlying listener's Close returns if it is called.  Collects
the results. -/
def closeListenerAll (this : Nat) : List (Option GoError) → World → Res (List (Option GoError))
  | [], w => .ret [] w
  | r :: rs, w =>
    (GracefulListener.Close this r w).bind fun e w1 =>
      (closeListenerAll this rs w1).bind fun es w2 => .ret (e :: es) w2

/-- The operations that touch the wait group. -/
inductive Op where
  | StartRoutine
  | FinishRoutine
  | Accept (this : Nat) (conn : Nat)
  | ConnClose (c : GracefulConnection) (underlying : Option GoError)

/-- Runs one operation, dropping its return value. -/
def Op.run : Op → World → Res Unit
  | .StartRoutine, w => Manners.StartRoutine w
  | .FinishRoutine, w => Manners.FinishRoutine w
  | .Accept this conn, w => (GracefulListener.Accept this (.ok conn) w).bind fun _ w1 => .ret () w1
  | .ConnClose c r, w => (GracefulConnection.Close c r w).bind fun _ w1 => .ret () w1

/-- Runs the operations in order, stopping at the first that does not return. -/
def runOps : List Op → World → Res Unit
  | [], w => .ret () w
  | op :: ops, w => (op.run w).bind fun _ w1 => runOps ops w1

/-- Whether the operation acquires a unit (`true`) or releases one (`false`). -/
def Op.acquires : Op → Bool
  | .StartRoutine => true
  | .Accept _ _ => true
  | .FinishRoutine => false
  | .ConnClose _ _ => false

/-- Whether, starting from count `c`, every release in the sequence finds a
count of at least one and every acquire a count below the largest `int32`. -/
def paired : List Op → Int → Bool
  | [], _ => true
  | op :: ops, c =>
    if op.acquires then decide (c < 2147483647) && paired ops (c + 1)
    else decide (1 ≤ c) && paired ops (c - 1)

/-- Whether the operation, if it is an `Accept`, goes through a pointer to one
of the `n` listeners of the heap. -/
def Op.listenerValid (n : Nat) : Op → Bool
  | .Accept this _ => decide (this < n)
  | _ => true

/-- Whether every `Accept` of the sequence goes through a listener of the heap. -/
def listenersValid (n : Nat) (ops : List Op) : Bool :=
  ops.all (Op.listenerValid n)

/-! ## Basic facts about the wait group -/

theorem int32_ofInt_val (x : Int) (h1 : -2147483648 ≤ x) (h2 : x ≤ 2147483647) :
    (int32.ofInt x).val = x := by
  simp only [int32.ofInt]
  omega

theorem StartRoutine_ret (w : World) (h : 0 ≤ w.waitGroup.val) (hm : w.waitGroup.val < 2147483647) :
    StartRoutine w =
      .ret () { w with waitGroup := int32.ofInt (w.waitGroup.val + 1),
                       trace := w.trace ++ [.wgAdd 1] } := by
  have h1 : ¬ ((int32.ofInt (w.waitGroup.val + 1)).val < 0) := by
    rw [int32_ofInt_val _ (by omega) (by omega)]; omega
  simp [StartRoutine, WaitGroup.Add, World.log, h1]

theorem StartRoutine_overflow (w : World) (h : w.waitGroup.val = 2147483647) :
    StartRoutine w =
      .panicked negativeCounter { w with waitGroup := int32.ofInt (w.waitGroup.val + 1),
                                         trace := w.trace ++ [.wgAdd 1] } ∧
    (int32.ofInt (w.waitGroup.val + 1)).val = -2147483648 := by
  have h2 : (int32.ofInt (w.waitGroup.val + 1)).val = -2147483648 := by
    simp only [int32.ofInt]
    omega
  have h1 : (int32.ofInt (w.waitGroup.val + 1)).val < 0 := by omega
  exact ⟨by simp [StartRoutine, WaitGroup.Add, World.log, h1], h2⟩

theorem FinishRoutine_ret (w : World) (h : 1 ≤ w.waitGroup.val) :
    FinishRoutine w =
      .ret () { w with waitGroup := int32.ofInt (w.waitGroup.val - 1),
                       trace := w.trace ++ [.wgAdd (-1)] } := by
  have hr := w.waitGroup.property
  have h1 : ¬ ((int32.ofInt (w.waitGroup.val + -1)).val < 0) := by
    rw [int32_ofInt_val _ (by omega) (by omega)]; omega
  simp only [FinishRoutine, WaitGroup.Done, WaitGroup.Add, World.log, h1, if_false]
  rfl

theorem FinishRoutine_panicked (w : World) (h : w.waitGroup.val = 0) :
    FinishRoutine w =
      .panicked negativeCounter
        { w with waitGroup := int32.ofInt (w.waitGroup.val - 1),
                 trace := w.trace ++ [.wgAdd (-1)] } := by
  have h1 : (int32.ofInt (w.waitGroup.val + -1)).val < 0 := by
    rw [int32_ofInt_val _ (by omega) (by omega)]; omega
  simp only [FinishRoutine, WaitGroup.Done, WaitGroup.Add, World.log, h1, if_true]
  rfl

theorem FinishRoutine_world (w : World) :
    (FinishRoutine w).world.trace = w.trace ++ [.wgAdd (-1)] ∧
      (FinishRoutine w).world.waitGroup = int32.ofInt (w.waitGroup.val - 1) ∧
      (FinishRoutine w).isBlocked = false := by
  simp only [FinishRoutine, WaitGroup.Done, WaitGroup.Add, World.log]
  split <;> exact ⟨rfl, rfl, rfl⟩

/-! ## Serve -/

theorem Serve_classify (delegate : Nat → World → Res (Option GoError)) (listener : Nat)
    (w w3 : World) (err : Option GoError)
    (hd : delegate listener
      ({ w with shutdownHandler := some listener }.log (.go .WaitForShutdown)) = .ret err w3) :
    GracefulServer.Serve delegate listener w =
      match err with
      | none => .ret none w3
      | some e => if e.isManners then .ret none w3 else .ret (some e) w3 := by
  simp only [GracefulServer.Serve, GracefulListener.CloseOnShutdown, Res.bind, hd]
  cases err <;> rfl

/-- C1: whatever error `err` the delegate's serve loop ends with, `Serve`
returns nil when `err` is nil or a `mannersError`, and `err` itself otherwise;
so no value `Serve` returns is a `mannersError`. -/
theorem Serve_result (delegate : Nat → World → Res (Option GoError)) (listener : Nat)
    (w w3 : World) (err : Option GoError)
    (hd : delegate listener
      ({ w with shutdownHandler := some listener }.log (.go .WaitForShutdown)) = .ret err w3) :
    (err = none → GracefulServer.Serve delegate listener w = .ret none w3) ∧
    (∀ e, err = some e → e.isManners = true →
      GracefulServer.Serve delegate listener w = .ret none w3) ∧
    (∀ e, err = some e → e.isManners = false →
      GracefulServer.Serve delegate listener w = .ret (some e) w3) ∧
    (∀ e w4, GracefulServer.Serve delegate listener w = .ret (some e) w4 →
      e.isManners = false ∧ err = some e) := by
  have hs := Serve_classify delegate listener w w3 err hd
  refine ⟨?_, ?_, ?_, ?_⟩
  · intro h; subst h; simpa using hs
  · intro e h hm; subst h; simpa [hm] using hs
  · intro e h hm; subst h; simpa [hm] using hs
  · intro e w4 h
    rw [hs] at h
    cases err with
    | none => simp at h
    | some e0 =>
      cases hm : e0.isManners with
      | true => simp [hm] at h
      | false =>
        simp [hm] at h
        obtain ⟨h1, _⟩ := h
        subst h1
        exact ⟨hm, rfl⟩

/-- Witness for C1: a delegate whose loop ends with the shutdown error, and one
whose loop ends with another error. -/
theorem Serve_result_witness :
    GracefulServer.Serve (fun _ w => .ret (some (.manners (some (.other "closed")))) w) 0
        World.init =
      .ret none ({ World.init with shutdownHandler := some 0 }.log (.go .WaitForShutdown)) ∧
    GracefulServer.Serve (fun _ w => .ret (some (.other "boom")) w) 0 World.init =
      .ret (some (.other "boom"))
        ({ World.init with shutdownHandler := some 0 }.log (.go .WaitForShutdown)) :=
  ⟨(Serve_result (fun _ w => .ret (some (.manners (some (.other "closed")))) w) 0 World.init _
      _ rfl).2.1 _ rfl rfl,
   (Serve_result (fun _ w => .ret (some (.other "boom")) w) 0 World.init _ _ rfl).2.2.1 _ rfl
      rfl⟩

/-! ## Accept -/

/-- C2: on a listener whose `open` flag is false, when the underlying Accept
fails with `e`, `Accept` calls `waitGroup.Wait()` after the underlying Accept:
it blocks there while the count is not zero, and with the count at zero it
returns no connection and `mannersError{e}`; so whenever it returns, the count
is zero and the error is the wrapped one, not `e`. -/
theorem Accept_closed_drains (this : Nat) (l : GracefulListener) (e : GoError) (w : World)
    (hl : w.heap[this]? = some l) (ho : l.open_ = false) :
    (w.waitGroup.val = 0 →
      GracefulListener.Accept this (.error e) w =
        .ret (none, some (.manners (some e))) ((w.log (.listenerAccept l.Listener)).log .wgWait)) ∧
    (w.waitGroup.val ≠ 0 →
      GracefulListener.Accept this (.error e) w =
        .blocked ((w.log (.listenerAccept l.Listener)).log .wgWait)) ∧
    (∀ r w1, GracefulListener.Accept this (.error e) w = .ret r w1 →
      w.waitGroup.val = 0 ∧ w1.waitGroup.val = 0 ∧ r = (none, some (.manners (some e))) ∧
      w1.trace = w.trace ++ [.listenerAccept l.Listener, .wgWait]) := by
  have hz : w.waitGroup.val = 0 →
      GracefulListener.Accept this (.error e) w =
        .ret (none, some (.manners (some e)))
          ((w.log (.listenerAccept l.Listener)).log .wgWait) := by
    intro h0
    simp [GracefulListener.Accept, hl, ho, WaitGroup.Wait, World.log, Res.bind, h0]
  have hn : w.waitGroup.val ≠ 0 →
      GracefulListener.Accept this (.error e) w =
        .blocked ((w.log (.listenerAccept l.Listener)).log .wgWait) := by
    intro h0
    simp [GracefulListener.Accept, hl, ho, WaitGroup.Wait, World.log, Res.bind, h0]
  refine ⟨hz, hn, ?_⟩
  intro r w1 h
  by_cases h0 : w.waitGroup.val = 0
  · rw [hz h0] at h
    injection h with h1 h2
    subst h1; subst h2
    simp [World.log, h0]
  · rw [hn h0] at h
    cases h

/-- Witness for C2: a closed listener with nothing outstanding, and the same
listener with one unit outstanding. -/
theorem Accept_closed_drains_witness :
    GracefulListener.Accept 0 (.error (.other "use of closed network connection"))
        { World.init with heap := [{ Listener := 7, open_ := false }] } =
      .ret (none, some (.manners (some (.other "use of closed network connection"))))
        (({ World.init with heap := [{ Listener := 7, open_ := false }] }.log
          (.listenerAccept 7)).log .wgWait) ∧
    GracefulListener.Accept 0 (.error (.other "use of closed network connection"))
        { World.init with heap := [{ Listener := 7, open_ := false }], waitGroup := int32.ofInt 1 } =
      .blocked
        (({ World.init with heap := [{ Listener := 7, open_ := false }], waitGroup := int32.ofInt 1 }.log
          (.listenerAccept 7)).log .wgWait) :=
  ⟨(Accept_closed_drains 0 { Listener := 7, open_ := false }
      (.other "use of closed network connection")
      { World.init with heap := [{ Listener := 7, open_ := false }] } rfl rfl).1 rfl,
   (Accept_closed_drains 0 { Listener := 7, open_ := false }
      (.other "use of closed network connection")
      { World.init with heap := [{ Listener := 7, open_ := false }], waitGroup := int32.ofInt 1 }
      rfl rfl).2.1 (by decide)⟩

/-- C4: on a listener whose `open` flag is true, when the underlying Accept
fails with `e`, `Accept` returns no connection and `e` itself, without calling
`waitGroup.Wait()` and with the count, the heap (so the `open` flag) and the
handler as they were; a `Serve` whose delegate ends with the error `Accept`
returned gives that error back, `e` being no `mannersError`. -/
theorem Accept_open_failure (this : Nat) (l : GracefulListener) (e : GoError) (w : World)
    (hl : w.heap[this]? = some l) (ho : l.open_ = true) :
    GracefulListener.Accept this (.error e) w =
      .ret (none, some e) (w.log (.listenerAccept l.Listener)) ∧
    (∀ r w1, GracefulListener.Accept this (.error e) w = .ret r w1 →
      r = (none, some e) ∧ w1.waitGroup = w.waitGroup ∧ w1.heap = w.heap ∧
      w1.heap[this]? = some l ∧ w1.shutdownHandler = w.shutdownHandler ∧
      w1.trace = w.trace ++ [.listenerAccept l.Listener] ∧
      w1.trace.count .wgWait = w.trace.count .wgWait ∧
      (e.isManners = false →
        ∀ (delegate : Nat → World → Res (Option GoError)) (listener : Nat) (w0 w3 : World),
          delegate listener
            ({ w0 with shutdownHandler := some listener }.log (.go .WaitForShutdown)) =
            .ret r.2 w3 →
          GracefulServer.Serve delegate listener w0 = .ret (some e) w3)) := by
  have ha : GracefulListener.Accept this (.error e) w =
      .ret (none, some e) (w.log (.listenerAccept l.Listener)) := by
    simp [GracefulListener.Accept, hl, ho]
  refine ⟨ha, ?_⟩
  intro r w1 h
  rw [ha] at h
  injection h with h1 h2
  subst h1; subst h2
  refine ⟨rfl, rfl, rfl, hl, rfl, rfl, by simp [World.log, List.count_append], ?_⟩
  intro hm delegate listener w0 w3 hd
  rw [Serve_classify delegate listener w0 w3 (some e) hd]
  simp [hm]

/-- Witness for C4: an open listener whose underlying Accept fails, and a
`Serve` whose delegate ends with the error that `Accept` returned. -/
theorem Accept_open_failure_witness :
    GracefulListener.Accept 0 (.error (.other "too many open files"))
        { World.init with heap := [{ Listener := 7, open_ := true }] } =
      .ret (none, some (.other "too many open files"))
        ({ World.init with heap := [{ Listener := 7, open_ := true }] }.log
          (.listenerAccept 7)) ∧
    GracefulServer.Serve (fun _ w => .ret (some (.other "too many open files")) w) 0
        { World.init with heap := [{ Listener := 7, open_ := true }] } =
      .ret (some (.other "too many open files"))
        ({ World.init with heap := [{ Listener := 7, open_ := true }],
                           shutdownHandler := some 0 }.log (.go .WaitForShutdown)) :=
  ⟨(Accept_open_failure 0 { Listener := 7, open_ := true } (.other "too many open files")
      { World.init with heap := [{ Listener := 7, open_ := true }] } rfl rfl).1,
   ((Accept_open_failure 0 { Listener := 7, open_ := true } (.other "too many open files")
      { World.init with heap := [{ Listener := 7, open_ := true }] } rfl rfl).2 _ _
      rfl).2.2.2.2.2.2.2 rfl (fun _ w => .ret (some (.other "too many open files")) w) 0
      { World.init with heap := [{ Listener := 7, open_ := true }] } _ rfl⟩

/-! ## Connections -/

theorem ConnClose_ret (c : GracefulConnection) (r : Option GoError) (w : World)
    (h : 1 ≤ w.waitGroup.val) :
    GracefulConnection.Close c r w =
      .ret r { w with waitGroup := int32.ofInt (w.waitGroup.val - 1),
                      trace := w.trace ++ [.connClose c.Conn, .wgAdd (-1)] } := by
  have h1 : 1 ≤ (w.log (.connClose c.Conn)).waitGroup.val := h
  simp only [GracefulConnection.Close]
  rw [FinishRoutine_ret _ h1]
  simp [Res.bind, World.log]

theorem ConnClose_panicked (c : GracefulConnection) (r : Option GoError) (w : World)
    (h : w.waitGroup.val = 0) :
    GracefulConnection.Close c r w =
      .panicked negativeCounter
        { w with waitGroup := int32.ofInt (w.waitGroup.val - 1),
                 trace := w.trace ++ [.connClose c.Conn, .wgAdd (-1)] } := by
  have h1 : (w.log (.connClose c.Conn)).waitGroup.val = 0 := h
  simp only [GracefulConnection.Close]
  rw [FinishRoutine_panicked _ h1]
  simp [Res.bind, World.log]

theorem ConnClose_trace (c : GracefulConnection) (r : Option GoError) (w : World) :
    (GracefulConnection.Close c r w).world.trace =
      w.trace ++ [.connClose c.Conn, .wgAdd (-1)] ∧
    (GracefulConnection.Close c r w).world.waitGroup = int32.ofInt (w.waitGroup.val - 1) := by
  simp only [GracefulConnection.Close, FinishRoutine, WaitGroup.Done, WaitGroup.Add, World.log]
  split <;> simp [Res.bind, Res.world] <;> rfl

/-- C6 fails as stated: connection 1 is accepted and its wrapper closed, which
returns; a second `Close` on the same wrapper, whose underlying Close reports
an error, calls the underlying Close and `FinishRoutine` but does not return
that error: `FinishRoutine` panics in the wait group, the count being zero. -/
theorem ConnClose_second_call_panics :
    ((GracefulListener.Accept 0 (.ok 1)
        { World.init with heap := [{ Listener := 7, open_ := true }] }).bind fun _ w1 =>
      (GracefulConnection.Close { Conn := 1 } none w1).bind fun _ w2 =>
        GracefulConnection.Close { Conn := 1 } (some (.other "use of closed connection")) w2) =
      .panicked negativeCounter
        { World.init with
          heap := [{ Listener := 7, open_ := true }]
          waitGroup := int32.ofInt (-1)
          trace := [.listenerAccept 7, .wgAdd 1, .connClose 1, .wgAdd (-1),
                    .connClose 1, .wgAdd (-1)] } :=
  rfl

/-- C6 as amended: for every wrapped connection and every result `r` of the
underlying connection's Close, `Close` calls the underlying Close first and
then `FinishRoutine` (the `Done` of the wait group), whatever `r` is.  With at
least one unit outstanding the count goes down by one and `Close` returns `r`
unchanged; with the count at zero `FinishRoutine` panics and `Close` returns
nothing. -/
theorem ConnClose_releases (c : GracefulConnection) (r : Option GoError) (w : World) :
    (GracefulConnection.Close c r w).world.trace =
      w.trace ++ [.connClose c.Conn, .wgAdd (-1)] ∧
    (1 ≤ w.waitGroup.val →
      ∃ w1, GracefulConnection.Close c r w = .ret r w1 ∧
        w1.waitGroup.val = w.waitGroup.val - 1 ∧
        w1.trace = w.trace ++ [.connClose c.Conn, .wgAdd (-1)] ∧
        w1.heap = w.heap ∧ w1.shutdownHandler = w.shutdownHandler ∧
        w1.ShutdownChannel = w.ShutdownChannel) ∧
    (w.waitGroup.val = 0 →
      ∃ w1, GracefulConnection.Close c r w = .panicked negativeCounter w1 ∧
        w1.trace = w.trace ++ [.connClose c.Conn, .wgAdd (-1)]) := by
  refine ⟨(ConnClose_trace c r w).1, ?_, ?_⟩
  · intro h
    have hr := w.waitGroup.property
    exact ⟨_, ConnClose_ret c r w h, int32_ofInt_val _ (by omega) (by omega), rfl, rfl, rfl, rfl⟩
  · intro h
    exact ⟨_, ConnClose_panicked c r w h, rfl⟩

/-- Witness for C6 as amended: one unit outstanding, the underlying Close once
succeeding and once failing. -/
theorem ConnClose_releases_witness :
    (∃ w1, GracefulConnection.Close { Conn := 3 } none
        { World.init with waitGroup := int32.ofInt 1 } = .ret none w1 ∧
      w1.waitGroup.val = 0 ∧ w1.trace = [.connClose 3, .wgAdd (-1)]) ∧
    (∃ w1, GracefulConnection.Close { Conn := 3 } (some (.other "reset"))
        { World.init with waitGroup := int32.ofInt 1 } = .ret (some (.other "reset")) w1 ∧
      w1.waitGroup.val = 0 ∧ w1.trace = [.connClose 3, .wgAdd (-1)]) := by
  refine ⟨?_, ?_⟩
  · obtain ⟨w1, h1, h2, h3, _⟩ :=
      (ConnClose_releases { Conn := 3 } none
        { World.init with waitGroup := int32.ofInt 1 }).2.1 (by decide)
    exact ⟨w1, h1, h2, h3⟩
  · obtain ⟨w1, h1, h2, h3, _⟩ :=
      (ConnClose_releases { Conn := 3 } (some (.other "reset"))
        { World.init with waitGroup := int32.ofInt 1 }).2.1 (by decide)
    exact ⟨w1, h1, h2, h3⟩

/-! ## Sequences of accepts and closes -/

theorem Accept_ok (this : Nat) (l : GracefulListener) (conn : Nat) (w : World)
    (hl : w.heap[this]? = some l) (h0 : 0 ≤ w.waitGroup.val)
    (hm : w.waitGroup.val < 2147483647) :
    GracefulListener.Accept this (.ok conn) w =
      .ret (some { Conn := conn }, none)
        { w with waitGroup := int32.ofInt (w.waitGroup.val + 1),
                 trace := w.trace ++ [.listenerAccept l.Listener, .wgAdd 1] } := by
  have h1 : 0 ≤ (w.log (.listenerAccept l.Listener)).waitGroup.val := h0
  have h2 : (w.log (.listenerAccept l.Listener)).waitGroup.val < 2147483647 := hm
  simp only [GracefulListener.Accept, hl]
  rw [StartRoutine_ret _ h1 h2]
  simp [Res.bind, World.log]

theorem Accept_overflow (this : Nat) (l : GracefulListener) (conn : Nat) (w : World)
    (hl : w.heap[this]? = some l) (hm : w.waitGroup.val = 2147483647) :
    GracefulListener.Accept this (.ok conn) w =
      .panicked negativeCounter
        { w with waitGroup := int32.ofInt (w.waitGroup.val + 1),
                 trace := w.trace ++ [.listenerAccept l.Listener, .wgAdd 1] } := by
  have h2 : (w.log (.listenerAccept l.Listener)).waitGroup.val = 2147483647 := hm
  simp only [GracefulListener.Accept, hl]
  rw [(StartRoutine_overflow _ h2).1]
  simp [Res.bind, World.log]

theorem acceptAll_spec (this : Nat) (l : GracefulListener) (conns : List Nat) :
    ∀ w : World, w.heap[this]? = some l → 0 ≤ w.waitGroup.val →
      w.waitGroup.val + conns.length ≤ 2147483647 →
      ∃ w1, acceptAll this conns w = .ret (conns.map GracefulConnection.mk) w1 ∧
        w1.waitGroup.val = w.waitGroup.val + conns.length ∧ w1.heap = w.heap := by
  induction conns with
  | nil => intro w _ _ _; exact ⟨w, rfl, by simp, rfl⟩
  | cons conn conns ih =>
    intro w hl h0 hm
    simp only [List.length_cons] at hm
    push_cast at hm
    have hv : (int32.ofInt (w.waitGroup.val + 1)).val = w.waitGroup.val + 1 :=
      int32_ofInt_val _ (by omega) (by omega)
    obtain ⟨w1, h1, h2, h3⟩ := ih
      { w with waitGroup := int32.ofInt (w.waitGroup.val + 1),
               trace := w.trace ++ [.listenerAccept l.Listener, .wgAdd 1] }
      hl (by show 0 ≤ (int32.ofInt (w.waitGroup.val + 1)).val; omega)
      (by show (int32.ofInt (w.waitGroup.val + 1)).val + (conns.length : Int) ≤ 2147483647
          omega)
    refine ⟨w1, ?_, ?_, h3⟩
    · simp only [acceptAll, Accept_ok this l conn w hl h0 (by omega), Res.bind, h1]
      simp
    · rw [h2]
      show (int32.ofInt (w.waitGroup.val + 1)).val + (conns.length : Int) = _
      simp only [List.length_cons]; push_cast; omega

theorem acceptAll_overflow (this : Nat) (l : GracefulListener) (conn : Nat) (n : Nat) :
    ∀ w : World, w.heap[this]? = some l → 0 ≤ w.waitGroup.val →
      w.waitGroup.val + n = 2147483648 →
      ∃ w1, acceptAll this (List.replicate n conn) w = .panicked negativeCounter w1 ∧
        w1.waitGroup.val = -2147483648 := by
  induction n with
  | zero =>
    intro w _ _ hs
    have hr := w.waitGroup.property
    simp at hs
    omega
  | succ n ih =>
    intro w hl h0 hs
    push_cast at hs
    by_cases hm : w.waitGroup.val = 2147483647
    · refine ⟨{ w with waitGroup := int32.ofInt (w.waitGroup.val + 1),
                       trace := w.trace ++ [.listenerAccept l.Listener, .wgAdd 1] },
        ?_, (StartRoutine_overflow w hm).2⟩
      simp only [List.replicate_succ, acceptAll, Accept_overflow this l conn w hl hm, Res.bind]
    · have hr := w.waitGroup.property
      have hv : (int32.ofInt (w.waitGroup.val + 1)).val = w.waitGroup.val + 1 :=
        int32_ofInt_val _ (by omega) (by omega)
      obtain ⟨w1, h1, h2⟩ := ih
        { w with waitGroup := int32.ofInt (w.waitGroup.val + 1),
                 trace := w.trace ++ [.listenerAccept l.Listener, .wgAdd 1] }
        hl (by show 0 ≤ (int32.ofInt (w.waitGroup.val + 1)).val; omega)
        (by show (int32.ofInt (w.waitGroup.val + 1)).val + (n : Int) = 2147483648
            omega)
      refine ⟨w1, ?_, h2⟩
      simp only [List.replicate_succ, acceptAll, Accept_ok this l conn w hl h0 (by omega),
        Res.bind, h1]

theorem closeAll_spec (cs : List (GracefulConnection × Option GoError)) :
    ∀ w : World, (cs.length : Int) ≤ w.waitGroup.val →
      ∃ w1, closeAll cs w = .ret (cs.map (·.2)) w1 ∧
        w1.waitGroup.val = w.waitGroup.val - cs.length ∧ w1.heap = w.heap ∧
        w1.trace.count (.wgAdd (-1)) = w.trace.count (.wgAdd (-1)) + cs.length := by
  induction cs with
  | nil => intro w _; exact ⟨w, rfl, by simp, rfl, by simp⟩
  | cons c cs ih =>
    intro w hk
    obtain ⟨c, r⟩ := c
    simp only [List.length_cons] at hk
    push_cast at hk
    have hr := w.waitGroup.property
    have hv : (int32.ofInt (w.waitGroup.val - 1)).val = w.waitGroup.val - 1 :=
      int32_ofInt_val _ (by omega) (by omega)
    have hc := ConnClose_ret c r w (by omega)
    obtain ⟨w1, h1, h2, h3, h4⟩ := ih
      { w with waitGroup := int32.ofInt (w.waitGroup.val - 1),
               trace := w.trace ++ [.connClose c.Conn, .wgAdd (-1)] }
      (by show (cs.length : Int) ≤ (int32.ofInt (w.waitGroup.val - 1)).val; omega)
    refine ⟨w1, ?_, ?_, h3, ?_⟩
    · simp only [closeAll, hc, Res.bind, h1]
      simp
    · rw [h2]
      show (int32.ofInt (w.waitGroup.val - 1)).val - (cs.length : Int) = _
      simp only [List.length_cons]; push_cast; omega
    · rw [h4]; simp [List.count_append, List.count_cons]; omega

theorem closeAll_panics (cs : List (GracefulConnection × Option GoError)) :
    ∀ w : World, 0 ≤ w.waitGroup.val → w.waitGroup.val < cs.length →
      (closeAll cs w).hasPanicked = true := by
  induction cs with
  | nil => intro w h0 hk; simp at hk; omega
  | cons c cs ih =>
    intro w h0 hk
    obtain ⟨c, r⟩ := c
    simp only [List.length_cons] at hk
    push_cast at hk
    by_cases h1 : 1 ≤ w.waitGroup.val
    · have hr := w.waitGroup.property
      have hv : (int32.ofInt (w.waitGroup.val - 1)).val = w.waitGroup.val - 1 :=
        int32_ofInt_val _ (by omega) (by omega)
      have hc := ConnClose_ret c r w h1
      have := ih
        { w with waitGroup := int32.ofInt (w.waitGroup.val - 1),
                 trace := w.trace ++ [.connClose c.Conn, .wgAdd (-1)] }
        (by show 0 ≤ (int32.ofInt (w.waitGroup.val - 1)).val; omega)
        (by show (int32.ofInt (w.waitGroup.val - 1)).val < (cs.length : Int); omega)
      simp only [closeAll, hc, Res.bind]
      revert this
      cases closeAll cs _ <;> simp [Res.hasPanicked]
    · simp only [closeAll, ConnClose_panicked c r w (by omega), Res.bind, Res.hasPanicked]

/-- C3 fails as stated: the counter of the wait group is an `int32`.  With
2147483647 units outstanding a successful underlying Accept makes `Accept`
panic instead of raising the count, and starting from count zero the last of
2147483648 accepts panics, the counter being -2147483648 then. -/
theorem Accept_at_max_count_panics :
    GracefulListener.Accept 0 (.ok 1)
        { World.init with heap := [{ Listener := 7, open_ := true }],
                          waitGroup := int32.ofInt 2147483647 } =
      .panicked negativeCounter
        { World.init with
          heap := [{ Listener := 7, open_ := true }]
          waitGroup := int32.ofInt (-2147483648)
          trace := [.listenerAccept 7, .wgAdd 1] } ∧
    ∃ w1, acceptAll 0 (List.replicate 2147483648 1)
        { World.init with heap := [{ Listener := 7, open_ := true }] } =
        .panicked negativeCounter w1 ∧ w1.waitGroup.val = -2147483648 :=
  ⟨rfl, acceptAll_overflow 0 { Listener := 7, open_ := true } 1 2147483648
    { World.init with heap := [{ Listener := 7, open_ := true }] } rfl (by decide) (by decide)⟩

/-- C3 as amended: each successful `Accept` made with fewer than 2147483647
units outstanding raises the count by exactly one (the `Add(1)` is made before
the wrapped connection is returned) and, with the count at zero to begin with,
`N <= 2147483647` successful accepts leave it at `N`; closing connections
returned by them, each at most once, lowers it by one per Close, so after one
Close on each of the `N` the count is zero and `Wait` returns at once, while
after closing fewer than `N` of them the count is positive and `Wait` blocks. -/
theorem accepts_then_closes (this : Nat) (l : GracefulListener) (conns : List Nat) (w : World)
    (hl : w.heap[this]? = some l) (h0 : w.waitGroup.val = 0)
    (hN : conns.length ≤ 2147483647) :
    (∀ (conn : Nat) (w0 : World), w0.heap[this]? = some l → 0 ≤ w0.waitGroup.val →
      w0.waitGroup.val < 2147483647 →
      ∃ w1, GracefulListener.Accept this (.ok conn) w0 = .ret (some { Conn := conn }, none) w1 ∧
        w1.waitGroup.val = w0.waitGroup.val + 1 ∧
        w1.trace = w0.trace ++ [.listenerAccept l.Listener, .wgAdd 1]) ∧
    ∃ w1, acceptAll this conns w = .ret (conns.map GracefulConnection.mk) w1 ∧
      w1.waitGroup.val = conns.length ∧
      ∀ cs : List (GracefulConnection × Option GoError),
        (cs.map (·.1)).Subperm (conns.map GracefulConnection.mk) →
        ∃ w2, closeAll cs w1 = .ret (cs.map (·.2)) w2 ∧
          w2.waitGroup.val = (conns.length : Int) - cs.length ∧
          ((cs.map (·.1)).Perm (conns.map GracefulConnection.mk) →
            w2.waitGroup.val = 0 ∧ WaitGroup.Wait w2 = .ret () (w2.log .wgWait)) ∧
          (cs.length < conns.length →
            0 < w2.waitGroup.val ∧ WaitGroup.Wait w2 = .blocked (w2.log .wgWait)) := by
  refine ⟨?_, ?_⟩
  · intro conn w0 hl0 hc hm
    exact ⟨_, Accept_ok this l conn w0 hl0 hc hm, int32_ofInt_val _ (by omega) (by omega), rfl⟩
  · obtain ⟨w1, h1, h2, _⟩ := acceptAll_spec this l conns w hl (by omega) (by omega)
    have h2a : w1.waitGroup.val = conns.length := by rw [h2, h0]; simp
    refine ⟨w1, h1, h2a, ?_⟩
    intro cs hsub
    have hlen : cs.length ≤ conns.length := by
      have := hsub.length_le
      simpa using this
    obtain ⟨w2, h3, h4, _, _⟩ := closeAll_spec cs w1 (by rw [h2a]; exact_mod_cast hlen)
    have h4a : w2.waitGroup.val = (conns.length : Int) - cs.length := by rw [h4, h2a]
    refine ⟨w2, h3, h4a, ?_, ?_⟩
    · intro hp
      have hl2 : cs.length = conns.length := by
        have := hp.length_eq
        simpa using this
      have hz : w2.waitGroup.val = 0 := by rw [h4a, hl2]; simp
      exact ⟨hz, by simp [WaitGroup.Wait, hz]⟩
    · intro hlt
      have hz : 0 < w2.waitGroup.val := by rw [h4a]; omega
      have hne : w2.waitGroup.val ≠ 0 := by omega
      exact ⟨hz, by simp [WaitGroup.Wait, hne]⟩

/-- Witness for C3 as amended: three accepts on an open listener, then either
all three connections closed (in another order) or only one of them. -/
theorem accepts_then_closes_witness :
    ∃ w1, acceptAll 0 [1, 2, 3] { World.init with heap := [{ Listener := 7, open_ := true }] } =
        .ret [{ Conn := 1 }, { Conn := 2 }, { Conn := 3 }] w1 ∧
      w1.waitGroup.val = 3 ∧
      (∃ w2, closeAll [({ Conn := 3 }, none), ({ Conn := 1 }, some (.other "reset")),
            ({ Conn := 2 }, none)] w1 = .ret [none, some (.other "reset"), none] w2 ∧
          w2.waitGroup.val = 0 ∧ WaitGroup.Wait w2 = .ret () (w2.log .wgWait)) ∧
      (∃ w2, closeAll [({ Conn := 2 }, none)] w1 = .ret [none] w2 ∧
          0 < w2.waitGroup.val ∧ WaitGroup.Wait w2 = .blocked (w2.log .wgWait)) := by
  obtain ⟨w1, h1, h2, h3⟩ :=
    (accepts_then_closes 0 { Listener := 7, open_ := true } [1, 2, 3]
      { World.init with heap := [{ Listener := 7, open_ := true }] } rfl rfl (by decide)).2
  refine ⟨w1, h1, h2, ?_, ?_⟩
  · obtain ⟨w2, h4, _, h6, _⟩ :=
      h3 [({ Conn := 3 }, none), ({ Conn := 1 }, some (.other "reset")), ({ Conn := 2 }, none)]
        (by decide)
    exact ⟨w2, h4, (h6 (by decide)).1, (h6 (by decide)).2⟩
  · obtain ⟨w2, h4, _, _, h7⟩ := h3 [({ Conn := 2 }, none)] (by decide)
    exact ⟨w2, h4, (h7 (by decide)).1, (h7 (by decide)).2⟩

/-- C7 fails as stated: with the connections 1 and 2 accepted, two `Close`
calls on the wrapper of connection 1 both return and lower the count twice,
from 2 to 0, although connection 2 was never closed; and with connection 1
alone accepted, the second `Close` on its wrapper panics in the wait group. -/
theorem ConnClose_twice_releases_twice :
    ((acceptAll 0 [1, 2] { World.init with heap := [{ Listener := 7, open_ := true }] }).bind
        fun _ w1 => closeAll [({ Conn := 1 }, none), ({ Conn := 1 }, none)] w1) =
      .ret [none, none]
        { World.init with
          heap := [{ Listener := 7, open_ := true }]
          waitGroup := int32.ofInt 0
          trace := [.listenerAccept 7, .wgAdd 1, .listenerAccept 7, .wgAdd 1,
                    .connClose 1, .wgAdd (-1), .connClose 1, .wgAdd (-1)] } ∧
    ((acceptAll 0 [1] { World.init with heap := [{ Listener := 7, open_ := true }] }).bind
        fun _ w1 => closeAll [({ Conn := 1 }, none), ({ Conn := 1 }, none)] w1) =
      .panicked negativeCounter
        { World.init with
          heap := [{ Listener := 7, open_ := true }]
          waitGroup := int32.ofInt (-1)
          trace := [.listenerAccept 7, .wgAdd 1, .connClose 1, .wgAdd (-1),
                    .connClose 1, .wgAdd (-1)] } :=
  ⟨rfl, rfl⟩

/-- C7 as amended: every `Close` call on a wrapped connection releases one
unit.  For every wrapper `c` and every `k` Close calls on it (with results
`rs`), made with at least `k` units outstanding, all calls return and the
count goes down by `k`, with `k` calls of `Done`; with fewer than `k` units
outstanding one of the calls panics.  The unit is released exactly once when
Close is called exactly once. -/
theorem ConnClose_releases_per_call (c : GracefulConnection) (rs : List (Option GoError))
    (w : World) (h0 : 0 ≤ w.waitGroup.val) :
    ((rs.length : Int) ≤ w.waitGroup.val →
      ∃ w1, closeAll (rs.map fun r => (c, r)) w = .ret rs w1 ∧
        w1.waitGroup.val = w.waitGroup.val - rs.length ∧
        w1.trace.count (.wgAdd (-1)) = w.trace.count (.wgAdd (-1)) + rs.length) ∧
    (w.waitGroup.val < rs.length → (closeAll (rs.map fun r => (c, r)) w).hasPanicked = true) ∧
    (∀ r, 1 ≤ w.waitGroup.val →
      ∃ w1, closeAll [(c, r)] w = .ret [r] w1 ∧ w1.waitGroup.val = w.waitGroup.val - 1 ∧
        w1.trace.count (.wgAdd (-1)) = w.trace.count (.wgAdd (-1)) + 1) := by
  refine ⟨?_, ?_, ?_⟩
  · intro hk
    obtain ⟨w1, h1, h2, _, h4⟩ := closeAll_spec (rs.map fun r => (c, r)) w (by simpa using hk)
    refine ⟨w1, ?_, by simpa using h2, by simpa using h4⟩
    rw [h1]
    congr 1
    simp [List.map_map, Function.comp_def]
  · intro hk
    exact closeAll_panics _ w h0 (by simpa using hk)
  · intro r h1
    obtain ⟨w1, h2, h3, _, h4⟩ := closeAll_spec [(c, r)] w (by simpa using h1)
    exact ⟨w1, by simpa using h2, by simpa using h3, by simpa using h4⟩

/-- Witness for C7 as amended: two Close calls on one wrapper with two units
outstanding. -/
theorem ConnClose_releases_per_call_witness :
    ∃ w1, closeAll ([none, some (.other "closed")].map fun r => (({ Conn := 1 } : GracefulConnection), r))
          { World.init with waitGroup := int32.ofInt 2 } = .ret [none, some (.other "closed")] w1 ∧
      w1.waitGroup.val = ({ World.init with waitGroup := int32.ofInt 2 } : World).waitGroup.val -
        ([none, some (GoError.other "closed")] : List (Option GoError)).length ∧
      w1.trace.count (.wgAdd (-1)) =
        ({ World.init with waitGroup := int32.ofInt 2 } : World).trace.count (.wgAdd (-1)) +
          ([none, some (GoError.other "closed")] : List (Option GoError)).length :=
  (ConnClose_releases_per_call { Conn := 1 } [none, some (.other "closed")]
    { World.init with waitGroup := int32.ofInt 2 } (by decide)).1 (by decide)

/-! ## The count over arbitrary sequences of operations -/

theorem Op_run_acquires (op : Op) (w : World) (ha : op.acquires = true)
    (hv : op.listenerValid w.heap.length = true) (h0 : 0 ≤ w.waitGroup.val)
    (hm : w.waitGroup.val < 2147483647) :
    ∃ w1, op.run w = .ret () w1 ∧ w1.waitGroup.val = w.waitGroup.val + 1 ∧ w1.heap = w.heap := by
  have hv1 : (int32.ofInt (w.waitGroup.val + 1)).val = w.waitGroup.val + 1 :=
    int32_ofInt_val _ (by omega) (by omega)
  cases op with
  | StartRoutine => exact ⟨_, StartRoutine_ret w h0 hm, hv1, rfl⟩
  | FinishRoutine => simp [Op.acquires] at ha
  | ConnClose c r => simp [Op.acquires] at ha
  | Accept this conn =>
    have hlt : this < w.heap.length := by simpa [Op.listenerValid] using hv
    have hl : w.heap[this]? = some w.heap[this] := List.getElem?_eq_getElem hlt
    refine ⟨{ w with waitGroup := int32.ofInt (w.waitGroup.val + 1),
                     trace := w.trace ++ [.listenerAccept w.heap[this].Listener, .wgAdd 1] },
      ?_, hv1, rfl⟩
    simp only [Op.run, Accept_ok this _ conn w hl h0 hm, Res.bind]

theorem Op_run_acquires_panics (op : Op) (w : World) (ha : op.acquires = true)
    (hv : op.listenerValid w.heap.length = true) (hm : w.waitGroup.val = 2147483647) :
    (op.run w).hasPanicked = true := by
  cases op with
  | StartRoutine => simp [Op.run, (StartRoutine_overflow w hm).1, Res.hasPanicked]
  | FinishRoutine => simp [Op.acquires] at ha
  | ConnClose c r => simp [Op.acquires] at ha
  | Accept this conn =>
    have hlt : this < w.heap.length := by simpa [Op.listenerValid] using hv
    have hl : w.heap[this]? = some w.heap[this] := List.getElem?_eq_getElem hlt
    simp only [Op.run, Accept_overflow this _ conn w hl hm, Res.bind, Res.hasPanicked]

theorem Op_run_releases (op : Op) (w : World) (ha : op.acquires = false)
    (h1 : 1 ≤ w.waitGroup.val) :
    ∃ w1, op.run w = .ret () w1 ∧ w1.waitGroup.val = w.waitGroup.val - 1 ∧ w1.heap = w.heap := by
  have hr := w.waitGroup.property
  have hv1 : (int32.ofInt (w.waitGroup.val - 1)).val = w.waitGroup.val - 1 :=
    int32_ofInt_val _ (by omega) (by omega)
  cases op with
  | StartRoutine => simp [Op.acquires] at ha
  | Accept this conn => simp [Op.acquires] at ha
  | FinishRoutine => exact ⟨_, FinishRoutine_ret w h1, hv1, rfl⟩
  | ConnClose c r =>
    refine ⟨{ w with waitGroup := int32.ofInt (w.waitGroup.val - 1),
                     trace := w.trace ++ [.connClose c.Conn, .wgAdd (-1)] }, ?_, hv1, rfl⟩
    simp only [Op.run, ConnClose_ret c r w h1, Res.bind]

theorem Op_run_releases_panics (op : Op) (w : World) (ha : op.acquires = false)
    (h1 : w.waitGroup.val = 0) :
    (op.run w).hasPanicked = true := by
  cases op with
  | StartRoutine => simp [Op.acquires] at ha
  | Accept this conn => simp [Op.acquires] at ha
  | FinishRoutine => simp [Op.run, FinishRoutine_panicked w h1, Res.hasPanicked]
  | ConnClose c r =>
    simp only [Op.run, ConnClose_panicked c r w h1, Res.bind, Res.hasPanicked]

theorem runOps_paired (ops : List Op) :
    ∀ w : World, listenersValid w.heap.length ops = true → 0 ≤ w.waitGroup.val →
      paired ops w.waitGroup.val = true →
      ∃ w1, runOps ops w = .ret () w1 ∧ 0 ≤ w1.waitGroup.val ∧ w1.heap = w.heap := by
  induction ops with
  | nil => intro w _ h0 _; exact ⟨w, rfl, h0, rfl⟩
  | cons op ops ih =>
    intro w hv h0 hp
    simp only [listenersValid, List.all_cons, Bool.and_eq_true] at hv
    cases ha : op.acquires with
    | true =>
      simp only [paired, ha, if_true, Bool.and_eq_true, decide_eq_true_eq] at hp
      obtain ⟨w1, h1, h2, h3⟩ := Op_run_acquires op w ha hv.1 h0 hp.1
      obtain ⟨w2, h4, h5, h6⟩ := ih w1 (by rw [h3]; exact hv.2) (by omega) (by rw [h2]; exact hp.2)
      exact ⟨w2, by simp only [runOps, h1, Res.bind, h4], h5, by rw [h6, h3]⟩
    | false =>
      simp only [paired, ha, Bool.false_eq_true, if_false, Bool.and_eq_true,
        decide_eq_true_eq] at hp
      obtain ⟨w1, h1, h2, h3⟩ := Op_run_releases op w ha hp.1
      obtain ⟨w2, h4, h5, h6⟩ := ih w1 (by rw [h3]; exact hv.2) (by omega) (by rw [h2]; exact hp.2)
      exact ⟨w2, by simp only [runOps, h1, Res.bind, h4], h5, by rw [h6, h3]⟩

theorem runOps_unpaired (ops : List Op) :
    ∀ w : World, listenersValid w.heap.length ops = true → 0 ≤ w.waitGroup.val →
      paired ops w.waitGroup.val = false → (runOps ops w).hasPanicked = true := by
  induction ops with
  | nil => intro w _ _ hp; simp [paired] at hp
  | cons op ops ih =>
    intro w hv h0 hp
    have hr := w.waitGroup.property
    simp only [listenersValid, List.all_cons, Bool.and_eq_true] at hv
    cases ha : op.acquires with
    | true =>
      by_cases hm : w.waitGroup.val < 2147483647
      · have hp2 : paired ops (w.waitGroup.val + 1) = false := by
          simpa [paired, ha, hm] using hp
        obtain ⟨w1, h1, h2, h3⟩ := Op_run_acquires op w ha hv.1 h0 hm
        have := ih w1 (by rw [h3]; exact hv.2) (by omega) (by rw [h2]; exact hp2)
        simpa only [runOps, h1, Res.bind] using this
      · have := Op_run_acquires_panics op w ha hv.1 (by omega)
        simp only [runOps]
        revert this
        cases op.run w <;> simp [Res.hasPanicked, Res.bind]
    | false =>
      by_cases hp1 : 1 ≤ w.waitGroup.val
      · have hp2 : paired ops (w.waitGroup.val - 1) = false := by
          simpa [paired, ha, hp1] using hp
        obtain ⟨w1, h1, h2, h3⟩ := Op_run_releases op w ha hp1
        have := ih w1 (by rw [h3]; exact hv.2) (by omega) (by rw [h2]; exact hp2)
        simpa only [runOps, h1, Res.bind] using this
      · have := Op_run_releases_panics op w ha (by omega)
        simp only [runOps]
        revert this
        cases op.run w <;> simp [Res.hasPanicked, Res.bind]

theorem paired_append_left (pre suf : List Op) :
    ∀ c : Int, paired (pre ++ suf) c = true → paired pre c = true := by
  induction pre with
  | nil => intro c _; rfl
  | cons op pre ih =>
    intro c h
    cases ha : op.acquires with
    | true =>
      simp only [List.cons_append, paired, ha, if_true, Bool.and_eq_true] at h ⊢
      exact ⟨h.1, ih _ h.2⟩
    | false =>
      simp only [List.cons_append, paired, ha, Bool.false_eq_true, if_false,
        Bool.and_eq_true] at h ⊢
      exact ⟨h.1, ih _ h.2⟩

theorem runOps_start_overflow (n : Nat) :
    ∀ w : World, 0 ≤ w.waitGroup.val → w.waitGroup.val + n = 2147483648 →
      ∃ w1, runOps (List.replicate n .StartRoutine) w = .panicked negativeCounter w1 ∧
        w1.waitGroup.val = -2147483648 := by
  induction n with
  | zero =>
    intro w _ hs
    have hr := w.waitGroup.property
    simp at hs
    omega
  | succ n ih =>
    intro w h0 hs
    push_cast at hs
    by_cases hm : w.waitGroup.val = 2147483647
    · refine ⟨{ w with waitGroup := int32.ofInt (w.waitGroup.val + 1),
                       trace := w.trace ++ [.wgAdd 1] }, ?_, (StartRoutine_overflow w hm).2⟩
      simp only [List.replicate_succ, runOps, Op.run, (StartRoutine_overflow w hm).1, Res.bind]
    · have hr := w.waitGroup.property
      have hv : (int32.ofInt (w.waitGroup.val + 1)).val = w.waitGroup.val + 1 :=
        int32_ofInt_val _ (by omega) (by omega)
      obtain ⟨w1, h1, h2⟩ := ih
        { w with waitGroup := int32.ofInt (w.waitGroup.val + 1),
                 trace := w.trace ++ [.wgAdd 1] }
        (by show 0 ≤ (int32.ofInt (w.waitGroup.val + 1)).val; omega)
        (by show (int32.ofInt (w.waitGroup.val + 1)).val + (n : Int) = 2147483648
            omega)
      refine ⟨w1, ?_, h2⟩
      simp only [List.replicate_succ, runOps, Op.run, StartRoutine_ret w h0 (by omega),
        Res.bind, h1]

/-- C10 fails as stated: from the initial state, with the count at zero, a
`FinishRoutine` panics in the wait group, whose counter is then -1; so does
the `Close` of a wrapped connection; and, the counter being an `int32`, the
last of 2147483648 `StartRoutine` calls panics with the counter at
-2147483648. -/
theorem FinishRoutine_at_zero_panics :
    runOps [.FinishRoutine] World.init =
      .panicked negativeCounter
        { World.init with waitGroup := int32.ofInt (-1), trace := [.wgAdd (-1)] } ∧
    runOps [.ConnClose { Conn := 1 } none] World.init =
      .panicked negativeCounter
        { World.init with waitGroup := int32.ofInt (-1),
                          trace := [.connClose 1, .wgAdd (-1)] } ∧
    ∃ w1, runOps (List.replicate 2147483648 .StartRoutine) World.init =
        .panicked negativeCounter w1 ∧ w1.waitGroup.val = -2147483648 :=
  ⟨rfl, rfl, runOps_start_overflow 2147483648 World.init (by decide) (by decide)⟩

/-- C10 as amended: from a state with the count at zero, a sequence of
`StartRoutine`, `FinishRoutine`, successful `Accept` and connection `Close`
operations in which every `FinishRoutine` and `Close` finds a count of at least
one, and every `StartRoutine` and `Accept` a count below 2147483647, runs
without a panic and without blocking, and the count is non-negative after each
of its operations; a sequence in which one of them finds the count at zero,
respectively at 2147483647, panics. -/
theorem count_nonneg_of_paired (ops : List Op) (w : World) (h0 : w.waitGroup.val = 0)
    (hv : listenersValid w.heap.length ops = true) :
    (paired ops 0 = true →
      ∀ pre suf, ops = pre ++ suf → ∃ w1, runOps pre w = .ret () w1 ∧ 0 ≤ w1.waitGroup.val) ∧
    (paired ops 0 = false → (runOps ops w).hasPanicked = true) := by
  refine ⟨?_, ?_⟩
  · intro hp pre suf hops
    subst hops
    have hv1 : listenersValid w.heap.length pre = true := by
      simp only [listenersValid, List.all_append, Bool.and_eq_true] at hv
      exact hv.1
    obtain ⟨w1, h1, h2, _⟩ := runOps_paired pre w hv1 (by omega)
      (by rw [h0]; exact paired_append_left pre suf 0 hp)
    exact ⟨w1, h1, h2⟩
  · intro hp
    exact runOps_unpaired ops w hv (by omega) (by rw [h0]; exact hp)

/-- Witness for C10 as amended: two accepts and a routine, all released. -/
theorem count_nonneg_of_paired_witness :
    ∃ w1, runOps [.Accept 0 1, .StartRoutine, .ConnClose { Conn := 1 } none, .Accept 0 2,
                  .FinishRoutine, .ConnClose { Conn := 2 } none]
        { World.init with heap := [{ Listener := 7, open_ := true }] } = .ret () w1 ∧
      0 ≤ w1.waitGroup.val :=
  (count_nonneg_of_paired
    [.Accept 0 1, .StartRoutine, .ConnClose { Conn := 1 } none, .Accept 0 2,
     .FinishRoutine, .ConnClose { Conn := 2 } none]
    { World.init with heap := [{ Listener := 7, open_ := true }] } rfl rfl).1 rfl _ [] (by simp)

/-! ## Closing the listener -/

theorem ListenerClose_open (this : Nat) (l : GracefulListener) (r : Option GoError) (w : World)
    (hl : w.heap[this]? = some l) (ho : l.open_ = true) :
    GracefulListener.Close this r w =
      .ret r { w with heap := w.heap.set this { l with open_ := false },
                      trace := w.trace ++ [.listenerClose l.Listener] } := by
  simp [GracefulListener.Close, hl, ho, World.log]

theorem ListenerClose_closed (this : Nat) (l : GracefulListener) (r : Option GoError) (w : World)
    (hl : w.heap[this]? = some l) (ho : l.open_ = false) :
    GracefulListener.Close this r w = .ret none w := by
  simp [GracefulListener.Close, hl, ho]

theorem closeListenerAll_closed (this : Nat) (l : GracefulListener) (w : World)
    (hl : w.heap[this]? = some l) (ho : l.open_ = false) (rs : List (Option GoError)) :
    closeListenerAll this rs w = .ret (rs.map fun _ => none) w := by
  induction rs with
  | nil => rfl
  | cons r rs ih =>
    simp only [closeListenerAll, ListenerClose_closed this l r w hl ho, Res.bind, ih]
    simp

theorem heap_set_same (heap : List GracefulListener) (this : Nat) (l l1 : GracefulListener)
    (hl : heap[this]? = some l) : (heap.set this l1)[this]? = some l1 := by
  have hlt : this < heap.length := by
    rcases Nat.lt_or_ge this heap.length with h | h
    · exact h
    · rw [List.getElem?_eq_none h] at hl; cases hl
  simp [List.getElem?_set, hlt]

/-- C5: a listener made by `NewListener` has `open` true, and on a listener
with `open` true the first `Close` sets `open` to false, closes the underlying
listener and returns what that Close returned; every later `Close` returns nil
and changes nothing.  So `k >= 1` Close calls return the first result followed
by nils, the underlying listener is closed exactly once, and `open` is false
after them. -/
theorem ListenerClose_idempotent (this : Nat) (l : GracefulListener) (w : World)
    (r : Option GoError) (rs : List (Option GoError))
    (hl : w.heap[this]? = some l) (ho : l.open_ = true) :
    (∀ (old : Nat) (w0 : World), ∃ w1, NewListener old w0 = .ret w0.heap.length w1 ∧
      w1.heap[w0.heap.length]? = some { Listener := old, open_ := true }) ∧
    ∃ w1, GracefulListener.Close this r w = .ret r w1 ∧
      w1.heap[this]? = some { Listener := l.Listener, open_ := false } ∧
      w1.trace = w.trace ++ [.listenerClose l.Listener] ∧
      (∀ r2, GracefulListener.Close this r2 w1 = .ret none w1) ∧
      closeListenerAll this (r :: rs) w = .ret (r :: rs.map fun _ => none) w1 ∧
      w1.trace.count (.listenerClose l.Listener) =
        w.trace.count (.listenerClose l.Listener) + 1 := by
  refine ⟨?_, ?_⟩
  · intro old w0
    exact ⟨_, rfl, by simp⟩
  · have hc := ListenerClose_open this l r w hl ho
    have hl1 : ({ w with heap := w.heap.set this { l with open_ := false },
                         trace := w.trace ++ [.listenerClose l.Listener] } : World).heap[this]? =
        some { Listener := l.Listener, open_ := false } :=
      heap_set_same w.heap this l _ hl
    refine ⟨_, hc, hl1, rfl, ?_, ?_, ?_⟩
    · intro r2
      exact ListenerClose_closed this _ r2 _ hl1 rfl
    · simp only [closeListenerAll, hc, Res.bind,
        closeListenerAll_closed this _ _ hl1 rfl rs]
    · simp [List.count_append]

/-- Witness for C5: three Close calls on the listener that `NewListener` makes
in the initial state. -/
theorem ListenerClose_idempotent_witness :
    NewListener 7 World.init =
      .ret 0 { World.init with heap := [{ Listener := 7, open_ := true }] } ∧
    ∃ w1, closeListenerAll 0 [some (.other "boom"), some (.other "again"), none]
        { World.init with heap := [{ Listener := 7, open_ := true }] } =
        .ret [some (.other "boom"), none, none] w1 ∧
      w1.heap[0]? = some { Listener := 7, open_ := false } ∧
      w1.trace = [.listenerClose 7] := by
  obtain ⟨w1, _, h2, h3, _, h5, _⟩ :=
    (ListenerClose_idempotent 0 { Listener := 7, open_ := true }
      { World.init with heap := [{ Listener := 7, open_ := true }] }
      (some (.other "boom")) [some (.other "again"), none] rfl rfl).2
  exact ⟨rfl, w1, h5, h2, h3⟩

/-! ## The shutdown handler -/

/-- C9: the handler is one slot.  For two distinct open listeners, after
`L1.CloseOnShutdown()` and then `L2.CloseOnShutdown()` the slot holds the
closure of `L2`; a `WaitForShutdown` that receives a value then calls it once
and returns: `L2` has `open` false and its underlying listener is closed once,
while `L1` is as it was, and its underlying listener (another object than that
of `L2`) has no Close call. -/
theorem shutdownHandler_replaced (L1 L2 : Nat) (l1 l2 : GracefulListener) (w : World)
    (sig : Nat) (rest : List Nat) (r : Option GoError)
    (h1 : w.heap[L1]? = some l1) (h2 : w.heap[L2]? = some l2)
    (ho1 : l1.open_ = true) (ho2 : l2.open_ = true) (hne : L1 ≠ L2)
    (hch : w.ShutdownChannel = sig :: rest) :
    ∃ wa wb wc, GracefulListener.CloseOnShutdown L1 w = .ret () wa ∧
      wa.shutdownHandler = some L1 ∧
      GracefulListener.CloseOnShutdown L2 wa = .ret () wb ∧
      wb.shutdownHandler = some L2 ∧ wb.heap = w.heap ∧ wb.trace = w.trace ∧
      WaitForShutdown r wb = .ret () wc ∧
      wc.heap[L2]? = some { Listener := l2.Listener, open_ := false } ∧
      wc.heap[L1]? = some { Listener := l1.Listener, open_ := true } ∧
      wc.trace = w.trace ++ [.recvShutdown sig, .listenerClose l2.Listener] ∧
      wc.ShutdownChannel = rest ∧ wc.waitGroup = w.waitGroup ∧
      wc.trace.count (.listenerClose l2.Listener) =
        w.trace.count (.listenerClose l2.Listener) + 1 ∧
      (l1.Listener ≠ l2.Listener →
        wc.trace.count (.listenerClose l1.Listener) =
          w.trace.count (.listenerClose l1.Listener)) := by
  have hc : GracefulListener.Close L2 r
      ({ w with shutdownHandler := some L2, ShutdownChannel := rest }.log (.recvShutdown sig)) =
      .ret r { w with shutdownHandler := some L2, ShutdownChannel := rest,
                      heap := w.heap.set L2 { l2 with open_ := false },
                      trace := w.trace ++ [.recvShutdown sig, .listenerClose l2.Listener] } := by
    have hc0 := ListenerClose_open L2 l2 r
      (World.log { w with shutdownHandler := some L2, ShutdownChannel := rest }
        (.recvShutdown sig)) h2 ho2
    simpa [World.log] using hc0
  refine ⟨{ w with shutdownHandler := some L1 }, { w with shutdownHandler := some L2 },
    { w with shutdownHandler := some L2, ShutdownChannel := rest,
             heap := w.heap.set L2 { l2 with open_ := false },
             trace := w.trace ++ [.recvShutdown sig, .listenerClose l2.Listener] },
    rfl, rfl, rfl, rfl, rfl, rfl, ?_, ?_, ?_, rfl, rfl, rfl, ?_, ?_⟩
  · simp only [WaitForShutdown, hch]
    simp only [World.log] at hc ⊢
    simp only [hc, Res.bind]
  · exact heap_set_same w.heap L2 l2 _ h2
  · show (w.heap.set L2 _)[L1]? = some { Listener := l1.Listener, open_ := true }
    rw [List.getElem?_set_ne (Ne.symm hne), h1, ← ho1]
  · simp [List.count_append, List.count_cons]
  · intro hd
    simp [List.count_append, List.count_cons, hd]

/-- Witness for C9: two open listeners and one value on the channel. -/
theorem shutdownHandler_replaced_witness :
    ∃ wc, WaitForShutdown none
        { World.init with
          ShutdownChannel := [15]
          shutdownHandler := some 1
          heap := [{ Listener := 7, open_ := true }, { Listener := 8, open_ := true }] } =
        .ret () wc ∧
      wc.heap[1]? = some { Listener := 8, open_ := false } ∧
      wc.heap[0]? = some { Listener := 7, open_ := true } ∧
      wc.trace = [.recvShutdown 15, .listenerClose 8] := by
  obtain ⟨wa, wb, wc, ha, _, hb, _, _, _, hw, h2, h1, ht, _⟩ :=
    shutdownHandler_replaced 0 1 { Listener := 7, open_ := true } { Listener := 8, open_ := true }
      { World.init with
        ShutdownChannel := [15]
        heap := [{ Listener := 7, open_ := true }, { Listener := 8, open_ := true }] }
      15 [] none rfl rfl rfl rfl (by decide) rfl
  cases ha
  cases hb
  exact ⟨wc, hw, h2, h1, ht⟩

/-! ## Background routines -/

/-- C8 fails as stated: for the action that itself calls `StartRoutine`, the
count after the goroutine of `RunRoutine` has ended is 1, not the 0 it was
before `RunRoutine`; for the action that itself calls `FinishRoutine`, the
count is 0 when that action ends and the deferred `FinishRoutine` panics; and
with 2147483647 units outstanding `RunRoutine` panics in `StartRoutine` and
starts nothing. -/
theorem RunRoutine_count_not_restored :
    ((RunRoutine (fun w => StartRoutine w) World.init).bind fun g w1 => g w1) =
      .ret () { World.init with
                waitGroup := int32.ofInt 1
                trace := [.wgAdd 1, .go .RunRoutine_func1, .wgAdd 1, .wgAdd (-1)] } ∧
    ((RunRoutine (fun w => FinishRoutine w) World.init).bind fun g w1 => g w1) =
      .panicked negativeCounter
        { World.init with
          waitGroup := int32.ofInt (-1)
          trace := [.wgAdd 1, .go .RunRoutine_func1, .wgAdd (-1), .wgAdd (-1)] } ∧
    ((RunRoutine (fun w => .ret () w)
        { World.init with waitGroup := int32.ofInt 2147483647 }).bind fun g w1 => g w1) =
      .panicked negativeCounter
        { World.init with waitGroup := int32.ofInt (-2147483648), trace := [.wgAdd 1] } :=
  ⟨rfl, rfl, rfl⟩

/-- C8 as amended: for every action `f`, `RunRoutine(f)`, called with fewer
than 2147483647 units outstanding, calls `StartRoutine` (count + 1) and only
then starts the goroutine that runs `f`.  In whatever state that goroutine
runs, while `f` has not ended it runs nothing else, and once `f` has ended, by
returning or by panicking, it calls `FinishRoutine` exactly once, after `f`,
and ends as `f` did.  For an `f` that leaves the count as it found it, the
count is at least one when `f` starts and as long as `f` has not ended, and
once `f` has ended and the goroutine is over it is what it was before
`RunRoutine`. -/
theorem RunRoutine_scoped (f : World → Res Unit) (w : World) (h0 : 0 ≤ w.waitGroup.val)
    (hm : w.waitGroup.val < 2147483647) :
    ∃ w1, RunRoutine f w = .ret (RunRoutine_func1 f) w1 ∧
      w1.waitGroup.val = w.waitGroup.val + 1 ∧ 1 ≤ w1.waitGroup.val ∧
      w1.trace = w.trace ++ [.wgAdd 1, .go .RunRoutine_func1] ∧
      (∀ w2 wf : World, f w2 = .blocked wf → RunRoutine_func1 f w2 = .blocked wf) ∧
      (∀ w2 : World, (f w2).isBlocked = false →
        (RunRoutine_func1 f w2).world.trace = (f w2).world.trace ++ [.wgAdd (-1)] ∧
        (RunRoutine_func1 f w2).world.waitGroup =
          int32.ofInt ((f w2).world.waitGroup.val - 1) ∧
        (RunRoutine_func1 f w2).isBlocked = false) ∧
      (∀ w2 wf : World, f w2 = .ret () wf → 1 ≤ wf.waitGroup.val →
        RunRoutine_func1 f w2 =
          .ret () { wf with waitGroup := int32.ofInt (wf.waitGroup.val - 1),
                            trace := wf.trace ++ [.wgAdd (-1)] }) ∧
      (∀ (w2 wf : World) (msg : String), f w2 = .panicked msg wf → 1 ≤ wf.waitGroup.val →
        RunRoutine_func1 f w2 =
          .panicked msg { wf with waitGroup := int32.ofInt (wf.waitGroup.val - 1),
                                  trace := wf.trace ++ [.wgAdd (-1)] }) ∧
      ((f w1).world.waitGroup = w1.waitGroup →
        1 ≤ (f w1).world.waitGroup.val ∧
        ((f w1).isBlocked = true →
          RunRoutine_func1 f w1 = f w1 ∧
          (RunRoutine_func1 f w1).world.waitGroup.val = w.waitGroup.val + 1) ∧
        ((f w1).isBlocked = false →
          (RunRoutine_func1 f w1).world.waitGroup.val = w.waitGroup.val ∧
          (RunRoutine_func1 f w1).returned = (f w1).returned ∧
          (RunRoutine_func1 f w1).hasPanicked = (f w1).hasPanicked)) := by
  have hv1 : (int32.ofInt (w.waitGroup.val + 1)).val = w.waitGroup.val + 1 :=
    int32_ofInt_val _ (by omega) (by omega)
  have hblk : ∀ w2 wf : World, f w2 = .blocked wf → RunRoutine_func1 f w2 = .blocked wf := by
    intro w2 wf hf
    simp only [RunRoutine_func1, hf]
  have hret : ∀ w2 wf : World, f w2 = .ret () wf → 1 ≤ wf.waitGroup.val →
      RunRoutine_func1 f w2 =
        .ret () { wf with waitGroup := int32.ofInt (wf.waitGroup.val - 1),
                          trace := wf.trace ++ [.wgAdd (-1)] } := by
    intro w2 wf hf h1
    simp only [RunRoutine_func1, hf, FinishRoutine_ret wf h1]
  have hpan : ∀ (w2 wf : World) (msg : String), f w2 = .panicked msg wf →
      1 ≤ wf.waitGroup.val →
      RunRoutine_func1 f w2 =
        .panicked msg { wf with waitGroup := int32.ofInt (wf.waitGroup.val - 1),
                                trace := wf.trace ++ [.wgAdd (-1)] } := by
    intro w2 wf msg hf h1
    simp only [RunRoutine_func1, hf, FinishRoutine_ret wf h1]
  have hgen : ∀ w2 : World, (f w2).isBlocked = false →
      (RunRoutine_func1 f w2).world.trace = (f w2).world.trace ++ [.wgAdd (-1)] ∧
      (RunRoutine_func1 f w2).world.waitGroup =
        int32.ofInt ((f w2).world.waitGroup.val - 1) ∧
      (RunRoutine_func1 f w2).isBlocked = false := by
    intro w2 hb
    cases hf : f w2 with
    | blocked wf => rw [hf] at hb; simp [Res.isBlocked] at hb
    | ret u wf =>
      have hw := FinishRoutine_world wf
      simp only [RunRoutine_func1, hf, Res.world]
      exact hw
    | panicked msg wf =>
      have hw := FinishRoutine_world wf
      simp only [RunRoutine_func1, hf, Res.world]
      revert hw
      cases FinishRoutine wf <;> simp [Res.world, Res.isBlocked]
  refine ⟨{ w with waitGroup := int32.ofInt (w.waitGroup.val + 1),
                   trace := w.trace ++ [.wgAdd 1, .go .RunRoutine_func1] },
    ?_, hv1, ?_, rfl, hblk, hgen, hret, hpan, ?_⟩
  · simp [RunRoutine, StartRoutine_ret w h0 hm, Res.bind, World.log]
  · show 1 ≤ (int32.ofInt (w.waitGroup.val + 1)).val
    omega
  · intro hn
    have hnv :
        (f { w with waitGroup := int32.ofInt (w.waitGroup.val + 1),
                    trace := w.trace ++ [.wgAdd 1, .go .RunRoutine_func1] }).world.waitGroup.val =
          w.waitGroup.val + 1 := by
      rw [hn]; exact hv1
    refine ⟨by omega, ?_, ?_⟩
    · intro hb
      cases hf : f { w with waitGroup := int32.ofInt (w.waitGroup.val + 1),
                            trace := w.trace ++ [.wgAdd 1, .go .RunRoutine_func1] } with
      | blocked wf =>
        rw [hf] at hnv
        rw [hblk _ wf hf]
        exact ⟨rfl, hnv⟩
      | ret u wf => rw [hf] at hb; simp [Res.isBlocked] at hb
      | panicked msg wf => rw [hf] at hb; simp [Res.isBlocked] at hb
    · intro hb
      have hfin : (int32.ofInt
          ((f { w with waitGroup := int32.ofInt (w.waitGroup.val + 1),
                       trace := w.trace ++ [.wgAdd 1, .go .RunRoutine_func1] }).world.waitGroup.val
            - 1)).val = w.waitGroup.val := by
        rw [hnv, int32_ofInt_val _ (by omega) (by omega)]; omega
      refine ⟨by rw [(hgen _ hb).2.1]; exact hfin, ?_, ?_⟩
      · cases hf : f { w with waitGroup := int32.ofInt (w.waitGroup.val + 1),
                              trace := w.trace ++ [.wgAdd 1, .go .RunRoutine_func1] } with
        | blocked wf => rw [hf] at hb; simp [Res.isBlocked] at hb
        | ret u wf =>
          rw [hf] at hnv
          rw [hret _ wf hf (by simp only [Res.world] at hnv; omega)]
          rfl
        | panicked msg wf =>
          rw [hf] at hnv
          rw [hpan _ wf msg hf (by simp only [Res.world] at hnv; omega)]
          rfl
      · cases hf : f { w with waitGroup := int32.ofInt (w.waitGroup.val + 1),
                              trace := w.trace ++ [.wgAdd 1, .go .RunRoutine_func1] } with
        | blocked wf => rw [hf] at hb; simp [Res.isBlocked] at hb
        | ret u wf =>
          rw [hf] at hnv
          rw [hret _ wf hf (by simp only [Res.world] at hnv; omega)]
          rfl
        | panicked msg wf =>
          rw [hf] at hnv
          rw [hpan _ wf msg hf (by simp only [Res.world] at hnv; omega)]
          rfl

/-- Witness for C8 as amended: an action that returns and an action that
panics, the goroutine being run in the state `RunRoutine` left. -/
theorem RunRoutine_scoped_witness :
    (∃ w1, RunRoutine (fun w => .ret () w) World.init =
        .ret (RunRoutine_func1 fun w => .ret () w) w1 ∧ w1.waitGroup.val = 1 ∧
      RunRoutine_func1 (fun w => .ret () w) w1 =
        .ret () { w1 with waitGroup := int32.ofInt (w1.waitGroup.val - 1),
                          trace := w1.trace ++ [.wgAdd (-1)] } ∧
      (RunRoutine_func1 (fun w => .ret () w) w1).world.waitGroup.val = 0) ∧
    (∃ w1, RunRoutine (fun w => .panicked "boom" w) World.init =
        .ret (RunRoutine_func1 fun w => .panicked "boom" w) w1 ∧ w1.waitGroup.val = 1 ∧
      RunRoutine_func1 (fun w => .panicked "boom" w) w1 =
        .panicked "boom" { w1 with waitGroup := int32.ofInt (w1.waitGroup.val - 1),
                                   trace := w1.trace ++ [.wgAdd (-1)] } ∧
      (RunRoutine_func1 (fun w => .panicked "boom" w) w1).world.waitGroup.val = 0) := by
  refine ⟨?_, ?_⟩
  · obtain ⟨w1, h1, h2, h3, _, _, _, h6, _, h8⟩ :=
      RunRoutine_scoped (fun w => .ret () w) World.init (by decide) (by decide)
    exact ⟨w1, h1, by rw [h2]; rfl, h6 w1 w1 rfl h3, by rw [((h8 rfl).2.2 rfl).1]; rfl⟩
  · obtain ⟨w1, h1, h2, h3, _, _, _, _, h7, h8⟩ :=
      RunRoutine_scoped (fun w => .panicked "boom" w) World.init (by decide) (by decide)
    exact ⟨w1, h1, by rw [h2]; rfl, h7 w1 w1 "boom" rfl h3, by rw [((h8 rfl).2.2 rfl).1]; rfl⟩

end Manners
